import Mathlib

/-!
Shallow embedding of the file-sight-stylist document-extraction viewer.

Sources embedded here:
- `src/services/documentService.ts` (unnamed/part_011, part_010): data model,
  `processDocument` page-count computation and CORS fallback, `chatWithDocument`.
- `src/components/DocumentViewer.tsx` (unnamed/part_005): page state,
  `handlePageChange`, chunk-selection navigation, `renderPageOverlay`.
- `src/components/ui/markdown.tsx` (unnamed/part_001): `convertHtmlTableToMarkdown`
  and `cleanMarkdown` regex pipeline.
- `src/components/FileUploader.tsx`: `validateFile` and `handleChange`.
- DocumentChat (unnamed/part_000, part_002): `handleSendChatMessage` transcript
  handling.

JavaScript numbers carrying box fractions are modelled by `Rat`; page indices
and sizes by `Int`/`Nat`.  JavaScript string-or-absent fields are `Option`;
truthiness tests of the source are modelled explicitly.
-/

namespace FileSight

/-- Box coordinates of a grounding, fractions of the page (documentService.ts). -/
structure BoxCoordinates where
  l : Rat
  t : Rat
  r : Rat
  b : Rat
deriving DecidableEq

/-- A grounding: bounding box plus 0-based page index (documentService.ts). -/
structure Grounding where
  box : BoxCoordinates
  page : Int
deriving DecidableEq

/-- The chunk_type union of documentService.ts. -/
inductive ChunkType where
  | title | page_header | page_footer | page_number
  | key_value | form | table | figure | text
deriving DecidableEq

/-- A page-level error entry of a DocumentResponse (documentService.ts). -/
structure PageError where
  page_num : Int
  error : String
  error_code : Int
deriving DecidableEq

/-- One extracted content unit (documentService.ts DocumentChunk). -/
structure DocumentChunk where
  text : String
  chunk_type : ChunkType
  chunk_id : String
  grounding : Option (List Grounding)
deriving DecidableEq

/-- The response payload for one document (documentService.ts DocumentResponse). -/
structure DocumentResponse where
  markdown : String
  chunks : List DocumentChunk
  errors : Option (List PageError)
  documentId : Option String
  pageCount : Option Int
deriving DecidableEq

/-- Envelope of the extraction endpoints (documentService.ts ApiResponse). -/
structure ApiResponse where
  data : DocumentResponse
  errors : Option (List PageError)
deriving DecidableEq

/-- Chat endpoint result shape (documentService.ts ChatResponse). -/
structure ChatResponse where
  message : String
  sourceChunks : Option (List DocumentChunk)
  error : Option String
  suggestedQuestions : Option (List String)
deriving DecidableEq

/-- A thrown JavaScript error as observed by catch clauses: whether it is a
TypeError, and its message. -/
structure JsError where
  isTypeError : Bool
  message : String
deriving DecidableEq

/-! ## DocumentViewer (unnamed/part_005) -/

/-- The CSS position of one overlay rectangle, in percent units, as computed by
the style object of `renderPageOverlay`. -/
structure OverlayBox where
  left : Rat
  top : Rat
  width : Rat
  height : Rat
deriving DecidableEq

/-- Style computation of `renderPageOverlay`:
left `l*100%`, top `t*100%`, width `(r-l)*100%`, height `(b-t)*100%`. -/
def overlayStyle (g : Grounding) : OverlayBox :=
  { left := g.box.l * 100
    top := g.box.t * 100
    width := (g.box.r - g.box.l) * 100
    height := (g.box.b - g.box.t) * 100 }

/-- Model of `getChunksForCurrentPage` of DocumentViewer: chunks with a grounding entry
on the API page index `currentPage - 1`. -/
def getChunksForCurrentPage (chunks : List DocumentChunk) (currentPage : Int) :
    List DocumentChunk :=
  chunks.filter fun chunk =>
    match chunk.grounding with
    | none => false
    | some gs => gs.any fun g => g.page == currentPage - 1

/-- Model of `renderPageOverlay` of DocumentViewer: for each chunk of the current page,
one overlay rectangle per grounding entry on that page, keyed by chunk id. -/
def renderPageOverlay (chunks : List DocumentChunk) (currentPage : Int) :
    List (String × OverlayBox) :=
  (getChunksForCurrentPage chunks currentPage).flatMap fun chunk =>
    match chunk.grounding with
    | none => []
    | some gs =>
      (gs.filter fun g => g.page == currentPage - 1).map fun g =>
        (chunk.chunk_id, overlayStyle g)

/-- Model of `handlePageChange` of DocumentViewer: accept the requested page only when
it lies in `[1, pageCount]`. -/
def handlePageChange (pageCount current page : Int) : Int :=
  if 1 ≤ page ∧ page ≤ pageCount then page else current

/-- The highlightedChunkId effect of DocumentViewer: find the selected chunk;
if it has a non-empty grounding list, move to its first grounding page plus one,
provided that page lies in `[1, pageCount]`.  The guard on a truthy
highlightedChunkId is the emptiness test on the id string. -/
def selectChunkPage (chunks : List DocumentChunk) (pageCount current : Int)
    (highlightedChunkId : String) : Int :=
  if highlightedChunkId = "" then current
  else
    match chunks.find? (fun c => c.chunk_id == highlightedChunkId) with
    | some c =>
      match c.grounding with
      | some (g :: _) =>
        let newPage := g.page + 1
        if 1 ≤ newPage ∧ newPage ≤ pageCount then newPage else current
      | _ => current
    | none => current

/-- Events that can change the viewer's current page. -/
inductive ViewerEvent where
  | pageChange : Int → ViewerEvent
  | selectChunk : String → ViewerEvent
deriving DecidableEq

/-- One step of the viewer's current-page state. -/
def viewerStep (chunks : List DocumentChunk) (pageCount current : Int) :
    ViewerEvent → Int
  | .pageChange p => handlePageChange pageCount current p
  | .selectChunk cid => selectChunkPage chunks pageCount current cid

/-- The viewer's current page after a sequence of events, starting from the
initial `useState(1)`. -/
def viewerRun (chunks : List DocumentChunk) (pageCount : Int)
    (events : List ViewerEvent) : Int :=
  events.foldl (viewerStep chunks pageCount) 1

/-! ## documentService (unnamed/part_011) -/

/-- JavaScript truthiness of the optional numeric pageCount field: present and
non-zero. -/
def pageCountTruthy : Option Int → Bool
  | none => false
  | some n => n != 0

/-- The filter `chunk.grounding && chunk.grounding.length > 0` of the
page-count computations. -/
def groundingNonEmpty (c : DocumentChunk) : Bool :=
  match c.grounding with
  | some (_ :: _) => true
  | _ => false

/-- The value `Math.max(...pages, 0)` over the grounding pages of chunks with non-empty
grounding, as computed by `processDocument` when the response lacks a truthy
pageCount. -/
def maxGroundingPage (chunks : List DocumentChunk) : Int :=
  ((chunks.filter groundingNonEmpty).flatMap fun c =>
    (c.grounding.getD []).map fun g => g.page).foldl max 0

/-- The pageCount that `processDocument` leaves on the response data: the
original field when truthy, otherwise the maximum grounding page plus one. -/
def processDocumentPageCount (data : DocumentResponse) : Option Int :=
  if pageCountTruthy data.pageCount then data.pageCount
  else some (maxGroundingPage data.chunks + 1)

/-- Model of `calculatedPageCount` of Document.tsx: the response pageCount when truthy,
otherwise `Math.max(...pages.map(p => p + 1), 1)` over chunks with grounding
when the chunk list is non-empty, otherwise 1. -/
def calculatedPageCount (data : DocumentResponse) : Int :=
  if pageCountTruthy data.pageCount then data.pageCount.getD 0
  else if 0 < data.chunks.length then
    (((data.chunks.filter groundingNonEmpty).flatMap fun c =>
      match c.grounding with
      | some gs => gs.map fun g => g.page + 1
      | none => [(0 : Int)]).foldl max 1)
  else 1

/-! ## String machinery for the regex pipeline of markdown.tsx

All regex replacements of the source are modelled as left-to-right scans over
`List Char`, matching JavaScript's global-replace semantics (leftmost match,
continue after the match). -/

/-- The JavaScript regex whitespace class `\s`. -/
def isJsWs (c : Char) : Bool :=
  c == ' ' || c == '\t' || c == '\n' || c == '\r' || c == '\u000B' ||
  c == '\u000C' || c == '\u00A0' || c == '\u1680' ||
  ('\u2000' ≤ c && c ≤ '\u200A') || c == '\u2028' || c == '\u2029' ||
  c == '\u202F' || c == '\u205F' || c == '\u3000' || c == '\uFEFF'

/-- Whether `pat` occurs at the start of `l`. -/
def startsWithL : List Char → List Char → Bool
  | [], _ => true
  | _ :: _, [] => false
  | p :: ps, c :: cs => p == c && startsWithL ps cs

/-- Split `l` at the first occurrence of `pat`: the part before the match and
the part after it.  `none` when `pat` does not occur. -/
def splitFirst (pat : List Char) : List Char → Option (List Char × List Char)
  | [] => none
  | c :: rest =>
    if startsWithL pat (c :: rest) then some ([], List.drop pat.length (c :: rest))
    else
      match splitFirst pat rest with
      | some (pre, post) => some (c :: pre, post)
      | none => none

/-- Split `l` at the first occurrence of either pattern (alternation in the
source regexes), also returning which pattern matched. -/
def splitFirst2 (p1 p2 : List Char) :
    List Char → Option (List Char × List Char × List Char)
  | [] => none
  | c :: rest =>
    if startsWithL p1 (c :: rest) then
      some ([], p1, List.drop p1.length (c :: rest))
    else if startsWithL p2 (c :: rest) then
      some ([], p2, List.drop p2.length (c :: rest))
    else
      match splitFirst2 p1 p2 rest with
      | some (pre, pat, post) => some (c :: pre, pat, post)
      | none => none

/-- Whether `pat` occurs somewhere in `l` (JavaScript `String.includes`). -/
def containsSub (pat l : List Char) : Bool :=
  (splitFirst pat l).isSome

/-- JavaScript `String.trim`, over the whitespace class. -/
def trimL (l : List Char) : List Char :=
  ((l.dropWhile isJsWs).reverse.dropWhile isJsWs).reverse

/-- Model of `Array.join` with a separator, over character lists. -/
def joinSep (sep : List Char) : List (List Char) → List Char
  | [] => []
  | [x] => x
  | x :: y :: rest => x ++ sep ++ joinSep sep (y :: rest)

/-- All matches of `/<tr>([\s\S]*?)<\/tr>/g`: the full matched row strings, in
order.  Fuel-driven scan; the wrapper supplies enough fuel. -/
def matchRowsGo : Nat → List Char → List (List Char)
  | 0, _ => []
  | fuel + 1, l =>
    match splitFirst "<tr>".data l with
    | none => []
    | some (_, afterOpen) =>
      match splitFirst "</tr>".data afterOpen with
      | none => []
      | some (inner, rest) =>
        ("<tr>".data ++ inner ++ "</tr>".data) :: matchRowsGo fuel rest

/-- Row matches of the table-conversion regex. -/
def matchRows (l : List Char) : List (List Char) :=
  matchRowsGo (l.length + 1) l

/-- All matches of `/<t[hd]>([\s\S]*?)<\/t[hd]>/g` as (full match, captured
inner content) pairs.  An opener pairs with the earliest closer of either kind,
exactly as the lazy alternation does. -/
def matchCellsGo : Nat → List Char → List (List Char × List Char)
  | 0, _ => []
  | fuel + 1, l =>
    match splitFirst2 "<th>".data "<td>".data l with
    | none => []
    | some (_, openTag, afterOpen) =>
      match splitFirst2 "</th>".data "</td>".data afterOpen with
      | none => []
      | some (inner, closeTag, rest) =>
        (openTag ++ inner ++ closeTag, inner) :: matchCellsGo fuel rest

/-- Cell matches of one row. -/
def matchCells (l : List Char) : List (List Char × List Char) :=
  matchCellsGo (l.length + 1) l

/-- One markdown line for a table row: cell contents are the captured group,
trimmed, with a single space for empty cells. -/
def rowLine (row : List Char) : List Char :=
  let cells := matchCells row
  let cellsContent := cells.map fun cell =>
    let content := trimL cell.2
    if content.isEmpty then [' '] else content
  "| ".data ++ joinSep " | ".data cellsContent ++ " |\n".data

/-- The separator line emitted after a first row that contains `<th>`. -/
def sepLine (row : List Char) : List Char :=
  let cells := matchCells row
  "| ".data ++ joinSep " | ".data (cells.map fun _ => "---".data) ++ " |\n".data

/-- The body built by the `rows.forEach` loop of `convertHtmlTableToMarkdown`:
one line per row, with the separator inserted after row 0 when it has `<th>`. -/
def rowsToMarkdown : List (List Char) → List Char
  | [] => []
  | first :: others =>
    rowLine first ++
    (if containsSub "<th>".data first then sepLine first else []) ++
    (others.flatMap rowLine)

/-- The replacement callback of `convertHtmlTableToMarkdown` applied to one
captured table content: a leading newline followed by the markdown rows. -/
def processTable (tableContent : List Char) : List Char :=
  '\n' :: rowsToMarkdown (matchRows tableContent)

/-- The global replace of `/<table>([\s\S]*?)<\/table>/g`: each `<table>`
pairs with the earliest later `</table>`; a `<table>` with no closer leaves
the rest untouched.  Fuel-driven scan. -/
def convertGo : Nat → List Char → List Char
  | 0, l => l
  | fuel + 1, l =>
    match splitFirst "<table>".data l with
    | none => l
    | some (pre, afterOpen) =>
      match splitFirst "</table>".data afterOpen with
      | none => l
      | some (inner, rest) =>
        pre ++ processTable inner ++ convertGo fuel rest

/-- Model of `convertHtmlTableToMarkdown` of markdown.tsx. -/
def convertHtmlTableToMarkdown (content : String) : String :=
  ⟨convertGo (content.data.length + 1) content.data⟩

/-- The comment regex `/<!--.*?-->/g`: `.` does not cross newlines, so a
`<!--` whose earliest `-->` has a newline in between matches nothing and the
scan moves one character forward.  Fuel-driven scan. -/
def removeCommentsGo : Nat → List Char → List Char
  | 0, l => l
  | fuel + 1, l =>
    match l with
    | [] => []
    | c :: rest =>
      if startsWithL "<!--".data (c :: rest) then
        match splitFirst "-->".data (List.drop 4 (c :: rest)) with
        | some (mid, post) =>
          if mid.contains '\n' then c :: removeCommentsGo fuel rest
          else removeCommentsGo fuel post
        | none => c :: removeCommentsGo fuel rest
      else c :: removeCommentsGo fuel rest

/-- The comment-stripping pass of `cleanMarkdown`. -/
def removeComments (l : List Char) : List Char :=
  removeCommentsGo (l.length + 1) l

/-- The pass `/\n{3,}/g → "\n\n"`: a maximal run of three or more newlines
collapses to two. -/
def collapseNl : List Char → List Char
  | '\n' :: '\n' :: '\n' :: rest =>
    '\n' :: '\n' :: collapseNl (rest.dropWhile fun c => c == '\n')
  | c :: rest => c :: collapseNl rest
  | [] => []
termination_by l => l.length
decreasing_by
  · simp only [List.length_cons]
    have h : (rest.dropWhile fun c => c == '\n').length ≤ rest.length := by
      induction rest with
      | nil => simp [List.dropWhile]
      | cons d l ih =>
        simp only [List.dropWhile]
        split
        · exact Nat.le_trans ih (by simp)
        · simp
    omega
  · simp

/-- The pass `/\s+/g → " "`: every maximal whitespace run becomes one space.
Fuel-driven scan; every step consumes at least one character, so the wrapper's
fuel never runs out. -/
def collapseWsGo : Nat → List Char → List Char
  | 0, _ => []
  | _ + 1, [] => []
  | fuel + 1, c :: rest =>
    if isJsWs c then ' ' :: collapseWsGo fuel (rest.dropWhile isJsWs)
    else c :: collapseWsGo fuel rest

/-- The whitespace-collapsing pass of `cleanMarkdown`. -/
def collapseWs (l : List Char) : List Char :=
  collapseWsGo (l.length + 1) l

/-- The pass `/> /g → ">"`: each occurrence of the two characters `"> "` is
replaced by `">"`, scanning left to right and continuing after the match. -/
def replaceGtSp : List Char → List Char
  | [] => []
  | [c] => [c]
  | c :: d :: rest =>
    if c == '>' && d == ' ' then '>' :: replaceGtSp rest
    else c :: replaceGtSp (d :: rest)

/-- The pass `/ </g → "<"`: each occurrence of `" <"` becomes `"<"`. -/
def replaceSpLt : List Char → List Char
  | [] => []
  | [c] => [c]
  | c :: d :: rest =>
    if c == ' ' && d == '<' then '<' :: replaceSpLt rest
    else c :: replaceSpLt (d :: rest)

/-- Model of `cleanMarkdown` of markdown.tsx: strip HTML comments, collapse three or
more newlines, collapse whitespace runs to one space, then delete the space
after `>` and before `<`. -/
def cleanMarkdown (content : String) : String :=
  ⟨replaceSpLt (replaceGtSp (collapseWs (collapseNl (removeComments content.data))))⟩

/-! ## FileUploader.tsx -/

/-- The client-side view of a selected file: name, MIME type, size in bytes. -/
structure FileInfo where
  name : String
  type : String
  size : Nat
deriving DecidableEq

/-- The default `maxFileSize` prop: 250MB in bytes. -/
def maxFileSize : Nat := 250 * 1024 * 1024

/-- The list `validImageTypes` of `validateFile`. -/
def validImageTypes : List String := ["image/jpeg", "image/jpg", "image/png"]

/-- The constant `validPdfType` of `validateFile`. -/
def validPdfType : String := "application/pdf"

/-- Model of `validateFile` of FileUploader: reject a type outside the accepted MIME
types, then reject a size above the limit; PDFs pass with the page count left
to the server. -/
def validateFile (file : FileInfo) : Bool :=
  if ¬ validImageTypes.contains file.type ∧ file.type ≠ validPdfType then false
  else if maxFileSize < file.size then false
  else true

/-- Model of `handleChange` (and `handleDrop`) of FileUploader: `onFileUpload` is
invoked, with the file, exactly when validation passes.  `none` means no
upload call and hence no network activity from this component. -/
def handleChange (file : FileInfo) : Option FileInfo :=
  if validateFile file then some file else none

/-! ## DocumentChat transcript handling (unnamed/part_000, part_002) -/

/-- Role of a transcript entry. -/
inductive ChatRole where
  | user | assistant
deriving DecidableEq

/-- One transcript entry of the chat state. -/
structure ChatMessage where
  role : ChatRole
  content : String
deriving DecidableEq

/-- The fixed message appended when the chat call throws. -/
def errorTranscriptMessage : String := "An error occurred. Please try again."

/-- JavaScript `String.trim` on whole strings, over the `\s` class. -/
def jsTrim (s : String) : String := ⟨trimL s.data⟩

/-- Model of `handleSendChatMessage` of DocumentChat, as a function from the previous
transcript, the input-box text and the outcome of the single
`onSendChatMessage` call to the next transcript.  An empty trimmed input
returns early; otherwise the user message is appended, then one assistant
entry depending on the outcome: the response message when truthy, else a
formatted error when the response carries one, else a fixed apology; a thrown
call appends the fixed error entry.  No other entry is touched and no second
call is made. -/
def handleSendChatMessage (prev : List ChatMessage) (chatMessage : String)
    (callResult : Except String ChatResponse) : List ChatMessage :=
  if jsTrim chatMessage = "" then prev
  else
    let userMessage := jsTrim chatMessage
    let afterUser := prev ++ [⟨.user, userMessage⟩]
    match callResult with
    | .ok response =>
      if response.message ≠ "" then
        afterUser ++ [⟨.assistant, response.message⟩]
      else if response.error.getD "" ≠ "" then
        afterUser ++ [⟨.assistant, "Error: " ++ response.error.getD ""⟩]
      else
        afterUser ++ [⟨.assistant, "Sorry, I couldn\u0027t process that request."⟩]
    | .error _ =>
      afterUser ++ [⟨.assistant, errorTranscriptMessage⟩]

/-! ## processDocument catch clause and chat fallback (unnamed/part_011) -/

/-- The canned sample DocumentResponse returned by `processDocument` when a
CORS-looking TypeError is caught. -/
def sampleDocumentResponse : DocumentResponse :=
  { markdown := "# Sample Document\n\n## Extracted Content\n\nThis is sample extracted content to demonstrate the UI functionality.\n\n## Note\n\nIn a real application, this would show actual content extracted from your document."
    chunks :=
      [ { chunk_id := "sample-1", chunk_type := .title
          text := "Sample Document Title"
          grounding := some [{ box := { l := 1/10, t := 1/10, r := 9/10, b := 1/5 }, page := 0 }] }
      , { chunk_id := "sample-2", chunk_type := .text
          text := "This is sample extracted content to demonstrate the UI functionality."
          grounding := some [{ box := { l := 1/10, t := 3/10, r := 9/10, b := 2/5 }, page := 0 }] }
      , { chunk_id := "sample-3", chunk_type := .form
          text := "Field: Sample Value"
          grounding := some [{ box := { l := 1/5, t := 1/2, r := 4/5, b := 3/5 }, page := 0 }] } ]
    errors := none
    documentId := none
    pageCount := some 1 }

/-- The catch clause of `processDocument`: a TypeError whose message mentions
CORS yields the canned sample ApiResponse; every other error is rethrown. -/
def processDocumentCatch (e : JsError) : Except JsError ApiResponse :=
  if e.isTypeError && containsSub "CORS".data e.message.data then
    .ok { data := sampleDocumentResponse, errors := none }
  else
    .error e

/-- The parsed JSON body of a successful chat call, fields optional. -/
structure ChatRaw where
  message : Option String
  sourceChunks : Option (List DocumentChunk)
  suggestedQuestions : Option (List String)
deriving DecidableEq

/-- The observable outcomes of the fetch inside `chatWithDocument`: a 2xx
response with a JSON body, a non-2xx response (which the code turns into a
thrown Error), or a transport error thrown by fetch itself. -/
inductive ChatOutcome where
  | success : ChatRaw → ChatOutcome
  | httpError : Option String → ChatOutcome
  | transportError : JsError → ChatOutcome
deriving DecidableEq

/-- The fallback ChatResponse built in the catch clause of
`chatWithDocument`. -/
def chatFallbackResponse : ChatResponse :=
  { message := "I can answer questions about the document. What would you like to know?"
    sourceChunks := none
    error := none
    suggestedQuestions := some
      [ "What is the main topic of this document?"
      , "Can you summarize the key points?"
      , "Are there any figures or tables in this document?" ] }

/-- Model of `chatWithDocument` of documentService: a success maps the body fields with
defaults and no error field; a non-2xx response throws inside the try and a
transport error throws at fetch, and both land in the catch clause, which
returns the fixed fallback instead of rethrowing.  The function is total: no
outcome escapes as an exception. -/
def chatWithDocument : ChatOutcome → ChatResponse
  | .success raw =>
    { message := raw.message.getD ""
      sourceChunks := some (raw.sourceChunks.getD [])
      error := none
      suggestedQuestions := some (raw.suggestedQuestions.getD []) }
  | .httpError _ => chatFallbackResponse
  | .transportError _ => chatFallbackResponse

/-- No character of the list is a newline. -/
def noNewline (l : List Char) : Bool :=
  l.all fun c => !(c == '\n')

/-- No two consecutive characters of the list are both whitespace. -/
def noDoubleWs : List Char → Bool
  | [] => true
  | [_] => true
  | a :: b :: rest => (!(isJsWs a && isJsWs b)) && noDoubleWs (b :: rest)

/-- A box with fractional coordinates inside the page, the normalization the
data model requires of API groundings. -/
def NormalizedBox (b : BoxCoordinates) : Prop :=
  0 ≤ b.l ∧ b.l ≤ b.r ∧ b.r ≤ 1 ∧ 0 ≤ b.t ∧ b.t ≤ b.b ∧ b.b ≤ 1

instance (b : BoxCoordinates) : Decidable (NormalizedBox b) := by
  unfold NormalizedBox; infer_instance

/-! ## Concrete data for instantiating the theorems -/

/-- A response whose chunks carry grounding entries on pages 0 and 2 and no
pageCount field. -/
def pagesWitnessResponse : DocumentResponse :=
  { markdown := "m"
    chunks :=
      [ { text := "a", chunk_type := .text, chunk_id := "w1"
          grounding := some [{ box := ⟨0, 0, 1, 1⟩, page := 0 }] }
      , { text := "b", chunk_type := .text, chunk_id := "w2"
          grounding := some [{ box := ⟨0, 0, 1, 1⟩, page := 2 }] } ]
    errors := none
    documentId := none
    pageCount := none }

/-- A 10MB PNG, inside every limit. -/
def pngWitnessFile : FileInfo :=
  { name := "sample.png", type := "image/png", size := 10 * 1024 * 1024 }

/-- A 300MB PDF, over the size limit. -/
def oversizeWitnessFile : FileInfo :=
  { name := "big.pdf", type := "application/pdf", size := 300 * 1024 * 1024 }

/-! ## Theorems -/

/-- C6: a file over 250MB, or of a type other than the accepted JPEG/PNG/PDF
MIME types, fails `validateFile` and `onFileUpload` is never invoked by
`handleChange`, so no network call happens; a 10MB PNG passes validation and
is handed to `onFileUpload`. -/
theorem validateFile_rejects_bad_files :
    (∀ f : FileInfo,
      maxFileSize < f.size ∨
        (validImageTypes.contains f.type = false ∧ f.type ≠ validPdfType) →
      validateFile f = false ∧ handleChange f = none) ∧
    validateFile pngWitnessFile = true ∧
    handleChange pngWitnessFile = some pngWitnessFile := by
  refine ⟨?_, by decide, by decide⟩
  intro f h
  have hv : validateFile f = false := by
    unfold validateFile
    split_ifs with t1 t2
    · rfl
    · rfl
    · exfalso
      rcases h with h | ⟨h1, h2⟩
      · exact t2 h
      · exact t1 ⟨by rw [h1]; decide, h2⟩
  exact ⟨hv, by simp [handleChange, hv]⟩

/-- Witness for C6: the 300MB file is rejected and no upload call happens. -/
theorem validateFile_rejects_bad_files_witness :
    validateFile oversizeWitnessFile = false ∧
    handleChange oversizeWitnessFile = none :=
  validateFile_rejects_bad_files.1 oversizeWitnessFile (Or.inl (by decide))

/-- C7: when the network call of `processDocument` fails with a TypeError
whose message mentions CORS, the catch clause returns the canned sample data
(three sample chunks, pageCount 1) instead of propagating the error; every
other failure is rethrown. -/
theorem processDocument_cors_fallback :
    (∀ e : JsError,
      e.isTypeError = true → containsSub "CORS".data e.message.data = true →
      processDocumentCatch e = .ok { data := sampleDocumentResponse, errors := none }) ∧
    (∀ e : JsError,
      e.isTypeError = false ∨ containsSub "CORS".data e.message.data = false →
      processDocumentCatch e = .error e) ∧
    sampleDocumentResponse.chunks.length = 3 ∧
    sampleDocumentResponse.pageCount = some 1 := by
  refine ⟨?_, ?_, rfl, rfl⟩
  · intro e h1 h2
    simp [processDocumentCatch, h1, h2]
  · intro e h
    rcases h with h | h <;> simp [processDocumentCatch, h]

/-- Witness for C7: a CORS TypeError gets the sample data, an HTTP error is
rethrown. -/
theorem processDocument_cors_fallback_witness :
    processDocumentCatch ⟨true, "Failed to fetch: CORS policy"⟩ =
      .ok { data := sampleDocumentResponse, errors := none } ∧
    processDocumentCatch ⟨false, "HTTP 500"⟩ = .error ⟨false, "HTTP 500"⟩ :=
  ⟨processDocument_cors_fallback.1 _ rfl (by decide),
   processDocument_cors_fallback.2.1 _ (Or.inl rfl)⟩

/-- C9: `chatWithDocument` never throws (it is a total function of the fetch
outcome) and never sets the error field; every failure outcome returns the
fixed fallback, whose message is the given non-empty string and which carries
three suggested questions. -/
theorem chatWithDocument_never_errors :
    (∀ o : ChatOutcome, (chatWithDocument o).error = none) ∧
    (∀ o : ChatOutcome, (∀ raw, o ≠ ChatOutcome.success raw) →
      chatWithDocument o = chatFallbackResponse) ∧
    chatFallbackResponse.message =
      "I can answer questions about the document. What would you like to know?" ∧
    chatFallbackResponse.message ≠ "" ∧
    (chatFallbackResponse.suggestedQuestions.getD []).length = 3 := by
  refine ⟨?_, ?_, rfl, by decide, rfl⟩
  · intro o; cases o <;> rfl
  · intro o h
    cases o with
    | success raw => exact absurd rfl (h raw)
    | httpError d => rfl
    | transportError e => rfl

/-- Witness for C9: a transport failure yields the fallback response. -/
theorem chatWithDocument_never_errors_witness :
    chatWithDocument (.transportError ⟨true, "network down"⟩) = chatFallbackResponse :=
  chatWithDocument_never_errors.2.1 _ (fun _ h => ChatOutcome.noConfusion h)

/-- C5: when the chat call throws, the next transcript is exactly the previous
one with the trimmed user message appended and then one assistant entry with
the fixed error text; nothing is lost and only the one consumed call outcome
is used. -/
theorem chat_error_appends (prev : List ChatMessage) (input err : String)
    (h : jsTrim input ≠ "") :
    handleSendChatMessage prev input (.error err) =
      prev ++ [⟨.user, jsTrim input⟩, ⟨.assistant, errorTranscriptMessage⟩] := by
  unfold handleSendChatMessage
  rw [if_neg h]
  simp

/-- Witness for C5 at a concrete transcript and message. -/
theorem chat_error_appends_witness :
    handleSendChatMessage [⟨.user, "earlier"⟩] "What is this?" (.error "boom") =
      [⟨.user, "earlier"⟩, ⟨.user, jsTrim "What is this?"⟩,
       ⟨.assistant, errorTranscriptMessage⟩] :=
  chat_error_appends [⟨.user, "earlier"⟩] "What is this?" "boom" (by decide)

/-- C2: selecting a chunk whose grounding list is non-empty moves the viewer
to the 1-based page `P + 1`, where `P` is the 0-based page of the chunk's
first grounding entry, whenever that page is a valid page of the document. -/
theorem selectChunk_sets_page (chunks : List DocumentChunk)
    (pageCount current : Int) (cid : String) (c : DocumentChunk)
    (g : Grounding) (gs : List Grounding)
    (hcid : cid ≠ "")
    (hfind : chunks.find? (fun ch => ch.chunk_id == cid) = some c)
    (hg : c.grounding = some (g :: gs))
    (h0 : 0 ≤ g.page) (hlt : g.page < pageCount) :
    selectChunkPage chunks pageCount current cid = g.page + 1 := by
  simp only [selectChunkPage, if_neg hcid, hfind, hg]
  split <;> omega

/-- Witness for C2: selecting the page-2 chunk of the witness response moves
the viewer to page 3. -/
theorem selectChunk_sets_page_witness :
    selectChunkPage pagesWitnessResponse.chunks 3 1 "w2" = 3 := by
  have h := selectChunk_sets_page pagesWitnessResponse.chunks 3 1 "w2"
    { text := "b", chunk_type := .text, chunk_id := "w2"
      grounding := some [{ box := ⟨0, 0, 1, 1⟩, page := 2 }] }
    { box := ⟨0, 0, 1, 1⟩, page := 2 } []
    (by decide) (by decide) rfl (by decide) (by decide)
  simpa using h

-- The viewer step keeps the current page inside [1, pageCount].
theorem viewerStep_in_range (chunks : List DocumentChunk)
    (pageCount current : Int) (e : ViewerEvent)
    (h1 : 1 ≤ current) (h2 : current ≤ pageCount) :
    1 ≤ viewerStep chunks pageCount current e ∧
    viewerStep chunks pageCount current e ≤ pageCount := by
  cases e with
  | pageChange p =>
    simp only [viewerStep, handlePageChange]
    split_ifs with hp
    · exact hp
    · exact ⟨h1, h2⟩
  | selectChunk cid =>
    simp only [viewerStep, selectChunkPage]
    repeat' split
    all_goals omega

/-- C8: with `pageCount ≥ 1`, the viewer's current page always lies in
`[1, pageCount]`: it starts at 1, `handlePageChange` ignores out-of-range
requests, and chunk selection only navigates to in-range pages. -/
theorem currentPage_invariant (chunks : List DocumentChunk) (pageCount : Int)
    (hpc : 1 ≤ pageCount) (events : List ViewerEvent) :
    1 ≤ viewerRun chunks pageCount events ∧
    viewerRun chunks pageCount events ≤ pageCount := by
  unfold viewerRun
  have main : ∀ (evs : List ViewerEvent) (cur : Int), 1 ≤ cur → cur ≤ pageCount →
      1 ≤ evs.foldl (viewerStep chunks pageCount) cur ∧
      evs.foldl (viewerStep chunks pageCount) cur ≤ pageCount := by
    intro evs
    induction evs with
    | nil => intro cur ha hb; exact ⟨ha, hb⟩
    | cons e rest ih =>
      intro cur ha hb
      have hstep := viewerStep_in_range chunks pageCount cur e ha hb
      exact ih _ hstep.1 hstep.2
  exact main events 1 le_rfl hpc

/-- Witness for C8 on a concrete event sequence with out-of-range requests. -/
theorem currentPage_invariant_witness :
    1 ≤ viewerRun pagesWitnessResponse.chunks 3
        [.pageChange 2, .pageChange 99, .selectChunk "w2", .pageChange 0] ∧
    viewerRun pagesWitnessResponse.chunks 3
        [.pageChange 2, .pageChange 99, .selectChunk "w2", .pageChange 0] ≤ 3 :=
  currentPage_invariant pagesWitnessResponse.chunks 3 (by decide)
    [.pageChange 2, .pageChange 99, .selectChunk "w2", .pageChange 0]

-- The seed of a left max-fold is a lower bound of the result.
theorem foldl_max_init_le (l : List Int) (a : Int) : a ≤ l.foldl max a := by
  induction l generalizing a with
  | nil => simp
  | cons x t ih => exact le_trans (le_max_left a x) (ih (max a x))

-- Every member of the list is a lower bound of a left max-fold.
theorem le_foldl_max (l : List Int) (a x : Int) (hx : x ∈ l) :
    x ≤ l.foldl max a := by
  induction l generalizing a with
  | nil => cases hx
  | cons y t ih =>
    rcases List.mem_cons.mp hx with rfl | hmem
    · exact le_trans (le_max_right a x) (foldl_max_init_le t (max a x))
    · exact ih (max a y) hmem

/-- C3: when a response has no pageCount field and its chunks carry grounding
entries on pages 0 and 2, `processDocument` sets pageCount to the maximum
0-based grounding page plus one, which is at least 3, and the Document page
fallback `calculatedPageCount` is also at least 3. -/
theorem pageCount_at_least_three (data : DocumentResponse)
    (hnone : data.pageCount = none)
    (c2 : DocumentChunk) (gs2 : List Grounding) (g2 : Grounding)
    (hc2 : c2 ∈ data.chunks) (hgs2 : c2.grounding = some gs2)
    (hg2 : g2 ∈ gs2) (hp2 : g2.page = 2)
    (c0 : DocumentChunk) (gs0 : List Grounding) (g0 : Grounding)
    (hc0 : c0 ∈ data.chunks) (hgs0 : c0.grounding = some gs0)
    (hg0 : g0 ∈ gs0) (hp0 : g0.page = 0) :
    processDocumentPageCount data = some (maxGroundingPage data.chunks + 1) ∧
    3 ≤ maxGroundingPage data.chunks + 1 ∧
    3 ≤ calculatedPageCount data := by
  have htr : pageCountTruthy data.pageCount = false := by
    rw [hnone]; rfl
  have hne : groundingNonEmpty c2 = true := by
    cases gs2 with
    | nil => cases hg2
    | cons a t => simp [groundingNonEmpty, hgs2]
  have hmem2 : (2 : Int) ∈ (data.chunks.filter groundingNonEmpty).flatMap
      fun c => (c.grounding.getD []).map fun g => g.page := by
    refine List.mem_flatMap.mpr ⟨c2, List.mem_filter.mpr ⟨hc2, hne⟩, ?_⟩
    rw [hgs2]
    exact List.mem_map.mpr ⟨g2, hg2, hp2⟩
  have h2le : (2 : Int) ≤ maxGroundingPage data.chunks :=
    le_foldl_max _ 0 2 hmem2
  refine ⟨?_, by omega, ?_⟩
  · simp [processDocumentPageCount, htr]
  · have hlen : 0 < data.chunks.length :=
      List.length_pos.mpr fun hnil => by rw [hnil] at hc2; cases hc2
    have hmem3 : (3 : Int) ∈ (data.chunks.filter groundingNonEmpty).flatMap
        fun c =>
          match c.grounding with
          | some gs => gs.map fun g => g.page + 1
          | none => [(0 : Int)] := by
      refine List.mem_flatMap.mpr ⟨c2, List.mem_filter.mpr ⟨hc2, hne⟩, ?_⟩
      rw [hgs2]
      exact List.mem_map.mpr ⟨g2, hg2, by rw [hp2]; rfl⟩
    have := le_foldl_max _ 1 3 hmem3
    simpa [calculatedPageCount, htr, hlen] using this

/-- Witness for C3: the two-chunk response with grounding pages 0 and 2. -/
theorem pageCount_at_least_three_witness :
    processDocumentPageCount pagesWitnessResponse =
      some (maxGroundingPage pagesWitnessResponse.chunks + 1) ∧
    3 ≤ maxGroundingPage pagesWitnessResponse.chunks + 1 ∧
    3 ≤ calculatedPageCount pagesWitnessResponse :=
  pageCount_at_least_three pagesWitnessResponse rfl
    { text := "b", chunk_type := .text, chunk_id := "w2"
      grounding := some [{ box := ⟨0, 0, 1, 1⟩, page := 2 }] }
    [{ box := ⟨0, 0, 1, 1⟩, page := 2 }] { box := ⟨0, 0, 1, 1⟩, page := 2 }
    (by decide) rfl (by decide) rfl
    { text := "a", chunk_type := .text, chunk_id := "w1"
      grounding := some [{ box := ⟨0, 0, 1, 1⟩, page := 0 }] }
    [{ box := ⟨0, 0, 1, 1⟩, page := 0 }] { box := ⟨0, 0, 1, 1⟩, page := 0 }
    (by decide) rfl (by decide) rfl

/-- C1: every overlay rectangle rendered for the current page takes its style
from the grounding box fractions times 100 percent (left `l·100%`, top
`t·100%`, width `(r−l)·100%`, height `(b−t)·100%`), and for normalized boxes
each of the four values lies within [0, 100] percent. -/
theorem overlay_box_position (chunks : List DocumentChunk) (currentPage : Int)
    (hnorm : ∀ c ∈ chunks, ∀ g ∈ c.grounding.getD [], NormalizedBox g.box)
    (cid : String) (st : OverlayBox)
    (hmem : (cid, st) ∈ renderPageOverlay chunks currentPage) :
    (∃ g : Grounding, st = overlayStyle g ∧
      st.left = g.box.l * 100 ∧ st.top = g.box.t * 100 ∧
      st.width = (g.box.r - g.box.l) * 100 ∧
      st.height = (g.box.b - g.box.t) * 100) ∧
    0 ≤ st.left ∧ st.left ≤ 100 ∧ 0 ≤ st.top ∧ st.top ≤ 100 ∧
    0 ≤ st.width ∧ st.width ≤ 100 ∧ 0 ≤ st.height ∧ st.height ≤ 100 := by
  obtain ⟨c, hcmem, hrest⟩ := List.mem_flatMap.mp hmem
  have hc : c ∈ chunks := (List.mem_filter.mp hcmem).1
  cases hgr : c.grounding with
  | none => rw [hgr] at hrest; cases hrest
  | some gs =>
    rw [hgr] at hrest
    obtain ⟨g, hgfil, hpair⟩ := List.mem_map.mp hrest
    have hgmem : g ∈ gs := (List.mem_filter.mp hgfil).1
    have hst : st = overlayStyle g := (congrArg Prod.snd hpair).symm
    have hbox : NormalizedBox g.box := by
      have := hnorm c hc g
      rw [hgr] at this
      exact this hgmem
    obtain ⟨hl0, hlr, hr1, ht0, htb, hb1⟩ := hbox
    subst hst
    refine ⟨⟨g, rfl, rfl, rfl, rfl, rfl⟩, ?_, ?_, ?_, ?_, ?_, ?_, ?_, ?_⟩ <;>
      simp only [overlayStyle] <;> nlinarith

/-- Witness for C1: the overlay of the first sample chunk on page 1. -/
theorem overlay_box_position_witness :
    (∃ g : Grounding,
      overlayStyle ⟨⟨1/10, 1/10, 9/10, 1/5⟩, 0⟩ = overlayStyle g ∧
      (overlayStyle ⟨⟨1/10, 1/10, 9/10, 1/5⟩, 0⟩).left = g.box.l * 100 ∧
      (overlayStyle ⟨⟨1/10, 1/10, 9/10, 1/5⟩, 0⟩).top = g.box.t * 100 ∧
      (overlayStyle ⟨⟨1/10, 1/10, 9/10, 1/5⟩, 0⟩).width = (g.box.r - g.box.l) * 100 ∧
      (overlayStyle ⟨⟨1/10, 1/10, 9/10, 1/5⟩, 0⟩).height = (g.box.b - g.box.t) * 100) ∧
    0 ≤ (overlayStyle ⟨⟨1/10, 1/10, 9/10, 1/5⟩, 0⟩).left ∧
    (overlayStyle ⟨⟨1/10, 1/10, 9/10, 1/5⟩, 0⟩).left ≤ 100 ∧
    0 ≤ (overlayStyle ⟨⟨1/10, 1/10, 9/10, 1/5⟩, 0⟩).top ∧
    (overlayStyle ⟨⟨1/10, 1/10, 9/10, 1/5⟩, 0⟩).top ≤ 100 ∧
    0 ≤ (overlayStyle ⟨⟨1/10, 1/10, 9/10, 1/5⟩, 0⟩).width ∧
    (overlayStyle ⟨⟨1/10, 1/10, 9/10, 1/5⟩, 0⟩).width ≤ 100 ∧
    0 ≤ (overlayStyle ⟨⟨1/10, 1/10, 9/10, 1/5⟩, 0⟩).height ∧
    (overlayStyle ⟨⟨1/10, 1/10, 9/10, 1/5⟩, 0⟩).height ≤ 100 :=
  overlay_box_position sampleDocumentResponse.chunks 1
    (by
      intro c hc g hg
      fin_cases hc <;> simp only [sampleDocumentResponse, Option.getD_some] at hg <;>
        fin_cases hg <;> norm_num [NormalizedBox])
    "sample-1" (overlayStyle ⟨⟨1/10, 1/10, 9/10, 1/5⟩, 0⟩)
    (List.mem_cons_self _ _)

/-- C4: on an input with no `<table>` tag the table conversion is the
identity, so the full pipeline output equals the cleaned input:
`cleanMarkdown (convertHtmlTableToMarkdown s) = cleanMarkdown s`. -/
theorem convert_identity_without_tables (s : String)
    (h : containsSub "<table>".data s.data = false) :
    convertHtmlTableToMarkdown s = s ∧
    cleanMarkdown (convertHtmlTableToMarkdown s) = cleanMarkdown s := by
  have hs : splitFirst "<table>".data s.data = none := by
    unfold containsSub at h
    cases hsf : splitFirst "<table>".data s.data with
    | none => rfl
    | some p => rw [hsf] at h; cases h
  have hid : convertHtmlTableToMarkdown s = s := by
    unfold convertHtmlTableToMarkdown
    rw [show convertGo (s.data.length + 1) s.data = s.data from by
      simp [convertGo, hs]]
  exact ⟨hid, by rw [hid]⟩

/-- Witness for C4: a plain markdown string without tables. -/
theorem convert_identity_without_tables_witness :
    convertHtmlTableToMarkdown "# Title\n\nPlain *markdown* text." =
      "# Title\n\nPlain *markdown* text." ∧
    cleanMarkdown (convertHtmlTableToMarkdown "# Title\n\nPlain *markdown* text.") =
      cleanMarkdown "# Title\n\nPlain *markdown* text." :=
  convert_identity_without_tables "# Title\n\nPlain *markdown* text." (by decide)

-- The head of a dropWhile result fails the predicate.
theorem dropWhile_head?_not (p : Char → Bool) (l : List Char) (c : Char)
    (h : (l.dropWhile p).head? = some c) : p c = false := by
  induction l with
  | nil => cases h
  | cons a t ih =>
    by_cases hp : p a
    · rw [List.dropWhile_cons_of_pos hp] at h
      exact ih h
    · rw [List.dropWhile_cons_of_neg hp] at h
      simp only [List.head?_cons, Option.some.injEq] at h
      subst h
      simpa using hp

-- noDoubleWs restricted to the tail.
theorem noDoubleWs_tail (a : Char) (l : List Char)
    (h : noDoubleWs (a :: l) = true) : noDoubleWs l = true := by
  cases l with
  | nil => rfl
  | cons b t =>
    have h' : ((!(isJsWs a && isJsWs b)) && noDoubleWs (b :: t)) = true := h
    exact (Bool.and_eq_true_iff.mp h').2

-- The leading pair of a noDoubleWs list is not double whitespace.
theorem noDoubleWs_pair (a b : Char) (l : List Char)
    (h : noDoubleWs (a :: b :: l) = true) : (isJsWs a && isJsWs b) = false := by
  have h' : ((!(isJsWs a && isJsWs b)) && noDoubleWs (b :: l)) = true := h
  have hx := (Bool.and_eq_true_iff.mp h').1
  cases hq : (isJsWs a && isJsWs b) with
  | false => rfl
  | true => rw [hq] at hx; cases hx

-- Extending a noDoubleWs list by a compatible head.
theorem noDoubleWs_cons (a : Char) (l : List Char)
    (hl : noDoubleWs l = true)
    (hhead : ∀ b, l.head? = some b → (isJsWs a && isJsWs b) = false) :
    noDoubleWs (a :: l) = true := by
  cases l with
  | nil => rfl
  | cons b t =>
    have hb := hhead b rfl
    show ((!(isJsWs a && isJsWs b)) && noDoubleWs (b :: t)) = true
    rw [hb, hl]
    rfl

-- Every character emitted by the whitespace-collapsing scan is a space or
-- non-whitespace.
theorem collapseWsGo_mem (fuel : Nat) (l : List Char) (c : Char)
    (hc : c ∈ collapseWsGo fuel l) : c = ' ' ∨ isJsWs c = false := by
  induction fuel generalizing l with
  | zero =>
    rw [show collapseWsGo 0 l = [] from rfl] at hc
    cases hc
  | succ fuel ih =>
    cases l with
    | nil =>
      rw [show collapseWsGo (fuel + 1) [] = [] from rfl] at hc
      cases hc
    | cons d rest =>
      by_cases hd : isJsWs d
      · rw [show collapseWsGo (fuel + 1) (d :: rest) =
            ' ' :: collapseWsGo fuel (rest.dropWhile isJsWs)
            from by simp [collapseWsGo, hd]] at hc
        rcases List.mem_cons.mp hc with rfl | h
        · exact Or.inl rfl
        · exact ih _ h
      · rw [show collapseWsGo (fuel + 1) (d :: rest) =
            d :: collapseWsGo fuel rest from by simp [collapseWsGo, hd]] at hc
        rcases List.mem_cons.mp hc with rfl | h
        · exact Or.inr (by simpa using hd)
        · exact ih _ h

-- The collapseWs output contains no newline.
theorem collapseWs_noNewline (l : List Char) : noNewline (collapseWs l) = true := by
  unfold noNewline
  rw [List.all_eq_true]
  intro c hcmem
  rcases collapseWsGo_mem _ l c hcmem with rfl | hws
  · decide
  · by_cases hc : c = '\n'
    · subst hc
      exact absurd hws (by decide)
    · simp [hc]

-- A non-whitespace input head keeps a non-whitespace head in the scan output.
theorem collapseWsGo_head_ws (fuel : Nat) (l : List Char) (b : Char)
    (hhd : ∀ a, l.head? = some a → isJsWs a = false)
    (hb : (collapseWsGo fuel l).head? = some b) : isJsWs b = false := by
  cases fuel with
  | zero =>
    rw [show collapseWsGo 0 l = [] from rfl] at hb
    cases hb
  | succ fuel =>
    cases l with
    | nil =>
      rw [show collapseWsGo (fuel + 1) [] = [] from rfl] at hb
      cases hb
    | cons c rest =>
      have hc := hhd c rfl
      rw [show collapseWsGo (fuel + 1) (c :: rest) =
          c :: collapseWsGo fuel rest from by simp [collapseWsGo, hc]] at hb
      simp only [List.head?_cons, Option.some.injEq] at hb
      subst hb
      exact hc

-- The whitespace-collapsing scan leaves no two consecutive whitespace
-- characters.
theorem collapseWsGo_noDoubleWs (fuel : Nat) (l : List Char) :
    noDoubleWs (collapseWsGo fuel l) = true := by
  induction fuel generalizing l with
  | zero => rfl
  | succ fuel ih =>
    cases l with
    | nil => rfl
    | cons d rest =>
      by_cases hd : isJsWs d
      · rw [show collapseWsGo (fuel + 1) (d :: rest) =
            ' ' :: collapseWsGo fuel (rest.dropWhile isJsWs)
            from by simp [collapseWsGo, hd]]
        refine noDoubleWs_cons _ _ (ih _) ?_
        intro b hb
        have hbws : isJsWs b = false :=
          collapseWsGo_head_ws fuel _ b
            (fun a ha => dropWhile_head?_not isJsWs rest a ha) hb
        rw [hbws]
        decide
      · rw [show collapseWsGo (fuel + 1) (d :: rest) =
            d :: collapseWsGo fuel rest from by simp [collapseWsGo, hd]]
        refine noDoubleWs_cons _ _ (ih _) ?_
        intro b hb
        have hdf : isJsWs d = false := by simpa using hd
        rw [hdf]
        rfl

-- The collapseWs output has no two consecutive whitespace characters.
theorem collapseWs_noDoubleWs (l : List Char) : noDoubleWs (collapseWs l) = true :=
  collapseWsGo_noDoubleWs _ l

-- replaceGtSp only emits characters of its input.
theorem replaceGtSp_mem (l : List Char) (c : Char) (hc : c ∈ replaceGtSp l) :
    c ∈ l := by
  induction l using replaceGtSp.induct with
  | case1 => cases hc
  | case2 d => exact hc
  | case3 a b rest hab ih =>
    rw [show replaceGtSp (a :: b :: rest) = '>' :: replaceGtSp rest
        from by simp [replaceGtSp, hab]] at hc
    have ha : a = '>' := eq_of_beq (Bool.and_eq_true_iff.mp hab).1
    rcases List.mem_cons.mp hc with rfl | hmem
    · rw [ha]
      exact List.mem_cons_self _ _
    · exact List.mem_cons_of_mem _ (List.mem_cons_of_mem _ (ih hmem))
  | case4 a b rest hab ih =>
    rw [show replaceGtSp (a :: b :: rest) = a :: replaceGtSp (b :: rest)
        from by simp [replaceGtSp, hab]] at hc
    rcases List.mem_cons.mp hc with rfl | hmem
    · exact List.mem_cons_self _ _
    · exact List.mem_cons_of_mem _ (ih hmem)

-- replaceSpLt only emits characters of its input.
theorem replaceSpLt_mem (l : List Char) (c : Char) (hc : c ∈ replaceSpLt l) :
    c ∈ l := by
  induction l using replaceSpLt.induct with
  | case1 => cases hc
  | case2 d => exact hc
  | case3 a b rest hab ih =>
    rw [show replaceSpLt (a :: b :: rest) = '<' :: replaceSpLt rest
        from by simp [replaceSpLt, hab]] at hc
    have hb : b = '<' := eq_of_beq (Bool.and_eq_true_iff.mp hab).2
    rcases List.mem_cons.mp hc with rfl | hmem
    · rw [← hb]
      exact List.mem_cons_of_mem _ (List.mem_cons_self _ _)
    · exact List.mem_cons_of_mem _ (List.mem_cons_of_mem _ (ih hmem))
  | case4 a b rest hab ih =>
    rw [show replaceSpLt (a :: b :: rest) = a :: replaceSpLt (b :: rest)
        from by simp [replaceSpLt, hab]] at hc
    rcases List.mem_cons.mp hc with rfl | hmem
    · exact List.mem_cons_self _ _
    · exact List.mem_cons_of_mem _ (ih hmem)

-- replaceGtSp keeps the head character.
theorem replaceGtSp_head? (l : List Char) : (replaceGtSp l).head? = l.head? := by
  induction l using replaceGtSp.induct with
  | case1 => rfl
  | case2 d => rfl
  | case3 a b rest hab ih =>
    have ha : a = '>' := eq_of_beq (Bool.and_eq_true_iff.mp hab).1
    rw [show replaceGtSp (a :: b :: rest) = '>' :: replaceGtSp rest
        from by simp [replaceGtSp, hab], ha]
    rfl
  | case4 a b rest hab ih =>
    rw [show replaceGtSp (a :: b :: rest) = a :: replaceGtSp (b :: rest)
        from by simp [replaceGtSp, hab]]
    rfl

-- replaceSpLt keeps the head character or replaces it by a non-whitespace '<'.
theorem replaceSpLt_head? (l : List Char) :
    (replaceSpLt l).head? = l.head? ∨ (replaceSpLt l).head? = some '<' := by
  induction l using replaceSpLt.induct with
  | case1 => exact Or.inl rfl
  | case2 d => exact Or.inl rfl
  | case3 a b rest hab ih =>
    right
    rw [show replaceSpLt (a :: b :: rest) = '<' :: replaceSpLt rest
        from by simp [replaceSpLt, hab]]
    rfl
  | case4 a b rest hab ih =>
    left
    rw [show replaceSpLt (a :: b :: rest) = a :: replaceSpLt (b :: rest)
        from by simp [replaceSpLt, hab]]
    rfl

-- replaceGtSp introduces no newline.
theorem replaceGtSp_noNewline (l : List Char) (h : noNewline l = true) :
    noNewline (replaceGtSp l) = true := by
  unfold noNewline at h ⊢
  rw [List.all_eq_true] at h ⊢
  intro c hc
  exact h c (replaceGtSp_mem l c hc)

-- replaceSpLt introduces no newline.
theorem replaceSpLt_noNewline (l : List Char) (h : noNewline l = true) :
    noNewline (replaceSpLt l) = true := by
  unfold noNewline at h ⊢
  rw [List.all_eq_true] at h ⊢
  intro c hc
  exact h c (replaceSpLt_mem l c hc)

-- replaceGtSp preserves the no-double-whitespace property.
theorem replaceGtSp_noDoubleWs (l : List Char) (h : noDoubleWs l = true) :
    noDoubleWs (replaceGtSp l) = true := by
  induction l using replaceGtSp.induct with
  | case1 => rfl
  | case2 d => rfl
  | case3 a b rest hab ih =>
    have h' : noDoubleWs rest = true := noDoubleWs_tail _ _ (noDoubleWs_tail _ _ h)
    rw [show replaceGtSp (a :: b :: rest) = '>' :: replaceGtSp rest
        from by simp [replaceGtSp, hab]]
    refine noDoubleWs_cons _ _ (ih h') ?_
    intro e he
    rw [show isJsWs '>' = false from by decide]
    rfl
  | case4 a b rest hab ih =>
    have h' : noDoubleWs (b :: rest) = true := noDoubleWs_tail _ _ h
    rw [show replaceGtSp (a :: b :: rest) = a :: replaceGtSp (b :: rest)
        from by simp [replaceGtSp, hab]]
    refine noDoubleWs_cons _ _ (ih h') ?_
    intro e he
    rw [replaceGtSp_head?] at he
    simp only [List.head?_cons, Option.some.injEq] at he
    subst he
    exact noDoubleWs_pair _ _ _ h

-- replaceSpLt preserves the no-double-whitespace property.
theorem replaceSpLt_noDoubleWs (l : List Char) (h : noDoubleWs l = true) :
    noDoubleWs (replaceSpLt l) = true := by
  induction l using replaceSpLt.induct with
  | case1 => rfl
  | case2 d => rfl
  | case3 a b rest hab ih =>
    have h' : noDoubleWs rest = true := noDoubleWs_tail _ _ (noDoubleWs_tail _ _ h)
    rw [show replaceSpLt (a :: b :: rest) = '<' :: replaceSpLt rest
        from by simp [replaceSpLt, hab]]
    refine noDoubleWs_cons _ _ (ih h') ?_
    intro e he
    rw [show isJsWs '<' = false from by decide]
    rfl
  | case4 a b rest hab ih =>
    have h' : noDoubleWs (b :: rest) = true := noDoubleWs_tail _ _ h
    rw [show replaceSpLt (a :: b :: rest) = a :: replaceSpLt (b :: rest)
        from by simp [replaceSpLt, hab]]
    refine noDoubleWs_cons _ _ (ih h') ?_
    intro e he
    rcases replaceSpLt_head? (b :: rest) with hh | hh
    · rw [hh] at he
      simp only [List.head?_cons, Option.some.injEq] at he
      subst he
      exact noDoubleWs_pair _ _ _ h
    · rw [hh] at he
      simp only [Option.some.injEq] at he
      subst he
      rw [show isJsWs '<' = false from by decide]
      simp

/-- C10: for every input, `cleanMarkdown` yields a string with no newline
character and no run of two or more consecutive whitespace characters: the
whitespace pass collapses every whitespace run, single newlines included, to
one space, and the later `"> "`/`" <"` passes only delete spaces between
non-whitespace neighbours. -/
theorem cleanMarkdown_collapses_whitespace (s : String) :
    noNewline (cleanMarkdown s).data = true ∧
    noDoubleWs (cleanMarkdown s).data = true := by
  have hdata : (cleanMarkdown s).data =
      replaceSpLt (replaceGtSp (collapseWs (collapseNl (removeComments s.data)))) := rfl
  rw [hdata]
  exact ⟨replaceSpLt_noNewline _ (replaceGtSp_noNewline _ (collapseWs_noNewline _)),
    replaceSpLt_noDoubleWs _ (replaceGtSp_noDoubleWs _ (collapseWs_noDoubleWs _))⟩

end FileSight
